import Mathlib

/-!
# eventmap: clipboard text fragment to KML placemark

A shallow embedding of `src/main.go`.  Go strings are byte sequences; the
functions of the Go standard library that `main.go` calls (`strings`,
`net/url`, `regexp`, `html`, `fmt`) are embedded for the arguments the
program passes to them, the functions of `main.go` itself are embedded line
by line, and the external collaborators of `main` (credential file, output
directory, clipboard, HTTP, JSON decoding, file write) are the fields of a
`World`.
-/

deriving instance DecidableEq for Except

namespace Eventmap

/-- A Go `string`: a sequence of bytes, each byte a natural number below 256. -/
abbrev GoString := List Nat

/-- The bytes of a source literal (Go source text is UTF-8). -/
def bytes (s : String) : GoString :=
  (s.toList.flatMap String.utf8EncodeChar).map UInt8.toNat

/-! ## Package `strings` -/

/-- Go `strings.Index(s, substr)`: the offset of the first occurrence of
`substr` in `s`; `none` stands for the result `-1`. -/
def Index : GoString → GoString → Option Nat
  | [], substr => if substr = [] then some 0 else none
  | c :: s, substr =>
    if substr.isPrefixOf (c :: s) then some 0 else (Index s substr).map (· + 1)

/-- The loop of Go `strings.genSplit` for a non-empty separator: cut at the
first occurrence of `sep`, continue behind it.  Every round removes at least
one byte, so `n` rounds are enough for a string of `n` bytes. -/
def genSplit (sep : GoString) : Nat → GoString → List GoString
  | 0, s => [s]
  | n + 1, s =>
    match Index s sep with
    | none => [s]
    | some m => s.take m :: genSplit sep n (s.drop (m + sep.length))

/-- Go `strings.Split(s, sep)` for a non-empty `sep` (both calls in `main`
pass a non-empty literal; the empty separator, which explodes `s` into UTF-8
sequences, is not embedded). -/
def Split (s sep : GoString) : List GoString := genSplit sep s.length s

/-- The loop of Go `strings.Replace` with `n < 0` for a non-empty `old`. -/
def replaceLoop (old new : GoString) : Nat → GoString → GoString
  | 0, s => s
  | n + 1, s =>
    match Index s old with
    | none => s
    | some j => s.take j ++ new ++ replaceLoop old new n (s.drop (j + old.length))

/-- Go `strings.ReplaceAll(s, old, new)` for a non-empty `old` (the ten
patterns of `sanitizeFileName` are one byte each). -/
def ReplaceAll (s old new : GoString) : GoString := replaceLoop old new s.length s

/-! ## Package `net/url` -/

/-- Go `ishex` of `net/url`. -/
def ishex (c : Nat) : Bool :=
  (48 ≤ c && c ≤ 57) || (97 ≤ c && c ≤ 102) || (65 ≤ c && c ≤ 70)

/-- Go `unhex` of `net/url`. -/
def unhex (c : Nat) : Nat :=
  if 48 ≤ c ∧ c ≤ 57 then c - 48
  else if 97 ≤ c ∧ c ≤ 102 then c - 97 + 10
  else if 65 ≤ c ∧ c ≤ 70 then c - 65 + 10
  else 0

/-- First loop of Go `unescape` in mode `encodeQueryComponent`: checks that
every `%` is followed by two hex digits.  The result is the number `n` of
escapes and the flag `hasPlus`, or the text of the `EscapeError` (the
offending `%` and up to two bytes behind it). -/
def unescapeScan : GoString → Except GoString (Nat × Bool)
  | [] => .ok (0, false)
  | c :: rest =>
    if c = 37 then
      match rest with
      | a :: b :: rest2 =>
        if ishex a && ishex b then
          match unescapeScan rest2 with
          | .ok (n, hasPlus) => .ok (n + 1, hasPlus)
          | .error e => .error e
        else .error [c, a, b]
      | _ => .error (c :: rest)
    else if c = 43 then
      match unescapeScan rest with
      | .ok (n, _) => .ok (n, true)
      | .error e => .error e
    else unescapeScan rest

/-- Second loop of Go `unescape` in mode `encodeQueryComponent`: `%XX`
becomes the byte `unhex(X)<<4 | unhex(X)`, `+` becomes a space, every other
byte is copied. -/
def unescapeBuild : GoString → GoString
  | [] => []
  | c :: rest =>
    if c = 37 then
      match rest with
      | a :: b :: rest2 => (unhex a <<< 4 ||| unhex b) :: unescapeBuild rest2
      | _ => []
    else if c = 43 then 32 :: unescapeBuild rest
    else c :: unescapeBuild rest

/-- Go `url.QueryUnescape(s)`; the error is the text of the `url.EscapeError`. -/
def QueryUnescape (s : GoString) : Except GoString GoString :=
  match unescapeScan s with
  | .error e => .error e
  | .ok (n, hasPlus) => if n = 0 ∧ hasPlus = false then .ok s else .ok (unescapeBuild s)

/-! ## Package `regexp`: the pattern of `extractToponym` -/

/-- The tail `([^,]+?),-` of the pattern once the group holds the bytes `acc`
(at least one): the lazy `+?` first tries to close the group, that is to read
`,-`, and only then takes one more byte other than a comma. -/
def matchGroup (acc : GoString) : GoString → Option GoString
  | [] => none
  | c :: rest =>
    if ([44, 45] : GoString).isPrefixOf (c :: rest) then some acc
    else if c ≠ 44 then matchGroup (acc ++ [c]) rest
    else none

/-- The pattern `(?i)-,([^,]+?),-` anchored at the start of `s`: the
literal `-,`, then one byte other than a comma, then `matchGroup`.  The
result is the text of group 1.  The flag `(?i)` changes nothing: `-` and `,`
have no other case, and a negated class is closed under case folding. -/
def matchHere : GoString → Option GoString
  | a :: b :: c :: rest => if a = 45 ∧ b = 44 ∧ c ≠ 44 then matchGroup [c] rest else none
  | _ => none

/-- Go `regexp.MustCompile("(?i)-,([^,]+?),-").FindStringSubmatch(s)`: the
leftmost match; the result is `[whole match, group 1]`, or `[]` (Go `nil`)
when there is no match. -/
def FindStringSubmatch : GoString → List GoString
  | [] => []
  | c :: rest =>
    match matchHere (c :: rest) with
    | some g => [[45, 44] ++ g ++ [44, 45], g]
    | none => FindStringSubmatch rest

/-! ## `main.go`: `sanitizeFileName` and `extractToponym` -/

/-- The slice `forbiddenChars` of `sanitizeFileName`: backslash, slash, colon,
asterisk, question mark, double quote, less-than, greater-than, pipe, space. -/
def forbiddenChars : List GoString :=
  [[92], [47], [58], [42], [63], [34], [60], [62], [124], [32]]

/-- Go `sanitizeFileName` (main.go 49-55). -/
def sanitizeFileName (name : GoString) : GoString :=
  forbiddenChars.foldl (fun name char => ReplaceAll name char [95]) name

/-- The errors `extractToponym` returns. -/
inductive ExtractError
  /-- The `url.EscapeError` of the structured branch, returned as it is. -/
  | escape (e : GoString)
  /-- The fallback branch: `fmt.Errorf("ошибка декодирования URL: %v", err)`. -/
  | decode (e : GoString)
  deriving DecidableEq, Repr

/-- Go `extractToponym` (main.go 57-69). -/
def extractToponym (urlFragment : GoString) : Except ExtractError GoString :=
  let ms := FindStringSubmatch urlFragment
  if ms.length ≥ 2 then
    match QueryUnescape (ms.getD 1 []) with
    | .ok t => .ok t
    | .error e => .error (.escape e)
  else
    match QueryUnescape urlFragment with
    | .error e => .error (.decode e)
    | .ok decoded =>
      match Index decoded [38] with
      | some idx => .ok (decoded.take idx)
      | none => .ok decoded

/-! ## Package `net/url`: escaping -/

/-- Go `shouldEscape(c, encodeQueryComponent)`: everything but the unreserved
characters (letters, digits, `-`, `_`, `.`, `~`) is escaped. -/
def shouldEscape (c : Nat) : Bool :=
  if (97 ≤ c && c ≤ 122) || (65 ≤ c && c ≤ 90) || (48 ≤ c && c ≤ 57) then false
  else if c = 45 ∨ c = 95 ∨ c = 46 ∨ c = 126 then false
  else true

/-- Go `upperhex[n]`, the digit of `"0123456789ABCDEF"` at index `n`. -/
def upperhex (n : Nat) : Nat := if n < 10 then 48 + n else 55 + n

/-- Go `url.QueryEscape(s)`: a space becomes `+`, a byte that should be
escaped becomes `%` and two upper-case hex digits, other bytes are copied. -/
def QueryEscape (s : GoString) : GoString :=
  s.flatMap fun c =>
    if shouldEscape c then
      if c = 32 then [43] else [37, upperhex (c >>> 4), upperhex (c &&& 15)]
    else [c]

/-! ## Package `html` -/

/-- The replacement table of Go `html.EscapeString`
(`strings.NewReplacer` with five one-byte patterns, applied byte by byte). -/
def escapeByte (c : Nat) : GoString :=
  if c = 38 then bytes "&amp;"
  else if c = 39 then bytes "&#39;"
  else if c = 60 then bytes "&lt;"
  else if c = 62 then bytes "&gt;"
  else if c = 34 then bytes "&#34;"
  else [c]

/-- Go `html.EscapeString(s)`. -/
def EscapeString (s : GoString) : GoString := s.flatMap escapeByte

/-! ## Package `fmt` -/

/-- Go `fmt.Sprintf(format, args...)` for the formats of `main`, whose only
verb is `%s` and whose operands are strings, one per verb: each `%s` is
replaced by the next operand, every other byte is copied. -/
def Sprintf : GoString → List GoString → GoString
  | [], _ => []
  | [c], _ => [c]
  | c :: v :: rest, args =>
    if c = 37 ∧ v = 115 then
      match args with
      | a :: args2 => a ++ Sprintf rest args2
      | [] => c :: Sprintf (v :: rest) args
    else c :: Sprintf (v :: rest) args

/-! ## `main.go`: the pipeline -/

/-- Constant `outputDir` (main.go 19). -/
def outputDir : GoString := bytes "C:\\Projects\\eventmap"

/-- One element of `FeatureMember` of `YandexGeocodeResponse` (main.go 25-31):
`GeoObject.Name` and `GeoObject.Point.Pos`. -/
structure Feature where
  name : GoString
  pos : GoString
  deriving DecidableEq, Repr

/-- Type `YandexGeocodeResponse` (main.go 22-35), reduced to the collection
`Response.GeoObjectCollection.FeatureMember`, its only content. -/
structure YandexGeocodeResponse where
  featureMember : List Feature
  deriving DecidableEq, Repr

/-- The external collaborators of one run of `main`. -/
structure World where
  /-- Result of `readAPIKey()` (main.go 37-47), which reads `apikey.txt` and
  trims it; `none` when it returns an error. -/
  readAPIKey : Option GoString
  /-- Whether `os.Stat(outputDir)` reports that the directory does not exist. -/
  outputDirMissing : Bool
  /-- Whether `os.MkdirAll(outputDir, 0755)` succeeds. -/
  mkdirAllOk : Bool
  /-- Result of `clipboard.ReadAll()`; `none` for an error. -/
  clipboardReadAll : Option GoString
  /-- Result of `http.Get(url)`: status code and body; `none` for an error. -/
  httpGet : GoString → Option (Nat × GoString)
  /-- Result of `json.NewDecoder(body).Decode(&yandexResp)`; `none` for an error. -/
  jsonDecode : GoString → Option YandexGeocodeResponse
  /-- The byte `os.PathSeparator` that `filepath.Join` puts between its two
  elements. -/
  pathSeparator : Nat
  /-- Whether `ioutil.WriteFile` succeeds. -/
  writeFileOk : Bool

/-- The fatal conditions of `main`; each one prints a message to the error
stream and calls `os.Exit(1)`. -/
inductive Fatal
  /-- `readAPIKey` failed (main.go 74-77). -/
  | ConfigError
  /-- `os.MkdirAll` failed (main.go 82-85). -/
  | DirectoryError
  /-- The clipboard could not be read or is empty (main.go 90-97). -/
  | ClipboardError
  /-- Fewer than two parts around the marker (main.go 102-105). -/
  | MalformedFragment
  /-- Error of `extractToponym` (main.go 107-110). -/
  | DecodeError (e : ExtractError)
  /-- Error of `http.Get` (main.go 122-125). -/
  | TransportError
  /-- Status other than 200 (main.go 129-133). -/
  | ServiceError (status : Nat) (body : GoString)
  /-- The body could not be decoded (main.go 137-140). -/
  | SchemaError
  /-- Empty `FeatureMember` (main.go 141-144). -/
  | NotFound
  /-- Empty name of the first feature (main.go 149-152). -/
  | MissingCanonicalName
  /-- The position does not split into two parts (main.go 158-161). -/
  | InvalidCoordinates
  /-- Error of `ioutil.WriteFile` (main.go 200-203). -/
  | FileWriteError
  deriving DecidableEq, Repr

/-- What one run of `main` does: its exit code, the fatal condition it stopped
on, the URLs it passed to `http.Get` and the `(filename, content)` pairs it
passed to `ioutil.WriteFile`. -/
structure Run where
  exitCode : Nat
  fatal : Option Fatal
  requests : List GoString
  writeFileCalls : List (GoString × GoString)
  deriving DecidableEq, Repr

/-- A run that stops on a fatal condition before any file is written. -/
def Run.exit1 (f : Fatal) (requests : List GoString) : Run :=
  { exitCode := 1, fatal := some f, requests := requests, writeFileCalls := [] }

/-- The format of `iframeContent` (main.go 168). -/
def iframeTemplate : GoString :=
  bytes "<iframe src=\"%s\" width=\"700\" height=\"800\" frameborder=\"0\"></iframe>"

/-- The raw string `kmlTemplate` (main.go 171-197). -/
def kmlTemplate : GoString :=
  bytes "<?xml version=\"1.0\" encoding=\"UTF-8\"?>\n" ++
  bytes "<kml xmlns=\"http://www.opengis.net/kml/2.2\">\n" ++
  bytes "\t<Document>\n" ++
  bytes "\t\t<Style id=\"customIcon\">\n" ++
  bytes "\t\t\t<IconStyle>\n" ++
  bytes "\t\t\t\t<color>ffc3ff82</color>\n" ++
  bytes "\t\t\t\t<scale>1.3</scale>\n" ++
  bytes "\t\t\t\t<Icon>\n" ++
  bytes "\t\t\t\t\t<href>https://static.svodd.ru/geomatrix/icons/BRICK.png</href>\n" ++
  bytes "\t\t\t\t</Icon>\n" ++
  bytes "\t\t\t</IconStyle>\n" ++
  bytes "\t\t\t<LabelStyle>\n" ++
  bytes "\t\t\t\t<scale>0</scale>\n" ++
  bytes "\t\t\t</LabelStyle>\n" ++
  bytes "\t\t\t<ListStyle>\n" ++
  bytes "\t\t\t</ListStyle>\n" ++
  bytes "\t\t</Style>\n" ++
  bytes "\t\t<Placemark>\n" ++
  bytes "\t\t\t<name>%s</name>\n" ++
  bytes "\t\t\t<description><![CDATA[%s]]></description>\n" ++
  bytes "\t\t\t<styleUrl>#customIcon</styleUrl>\n" ++
  bytes "\t\t\t<Point>\n" ++
  bytes "\t\t\t\t<coordinates>%s,%s,0</coordinates>\n" ++
  bytes "\t\t\t</Point>\n" ++
  bytes "\t\t</Placemark>\n" ++
  bytes "\t</Document>\n" ++
  bytes "</kml>"

/-- The marker of a text fragment directive (main.go 101). -/
def marker : GoString := bytes "#:~:text="

/-- The format of `apiURL` (main.go 116). -/
def apiURLTemplate : GoString :=
  bytes "https://geocode-maps.yandex.ru/1.x/?format=json&apikey=%s&geocode=%s"

/-- Step 8 of `main` (main.go 165-205): render the document and write it. -/
def writeKML (w : World) (clipboardContent filename yandexToponym longitude latitude : GoString)
    (requests : List GoString) : Run :=
  let escapedURL := EscapeString clipboardContent
  let iframeContent := Sprintf iframeTemplate [escapedURL]
  let kmlContent := Sprintf kmlTemplate [yandexToponym, iframeContent, longitude, latitude]
  if w.writeFileOk then
    { exitCode := 0, fatal := none, requests := requests,
      writeFileCalls := [(filename, kmlContent)] }
  else
    { exitCode := 1, fatal := some .FileWriteError, requests := requests,
      writeFileCalls := [(filename, kmlContent)] }

/-- Step 7 of `main` from the decoded response on (main.go 141-163), then
`writeKML`.  `filepath.Join` puts the separator between `outputDir` and the
file name; its `Clean` changes nothing, the sanitized name holding no
separator and `sanitized+".kml"` being neither `.` nor `..`. -/
def processResponse (w : World) (clipboardContent : GoString) (requests : List GoString)
    (yandexResp : YandexGeocodeResponse) : Run :=
  match yandexResp.featureMember with
  | [] => Run.exit1 .NotFound requests
  | first :: _ =>
    let yandexToponym := first.name
    if yandexToponym = [] then Run.exit1 .MissingCanonicalName requests
    else
      let sanitized := sanitizeFileName yandexToponym
      let filename := outputDir ++ [w.pathSeparator] ++ (sanitized ++ bytes ".kml")
      let pos := first.pos
      let coords := Split pos [32]
      if coords.length ≠ 2 then Run.exit1 .InvalidCoordinates requests
      else
        writeKML w clipboardContent filename yandexToponym (coords.getD 0 []) (coords.getD 1 [])
          requests

/-- Steps 4 to 7 of `main` from the call of `extractToponym` on
(main.go 106-140), then `processResponse`; `fragment` is `parts[1]`. -/
def fromFragment (w : World) (apiKey clipboardContent fragment : GoString) : Run :=
  match extractToponym fragment with
  | .error e => Run.exit1 (.DecodeError e) []
  | .ok toponym =>
    let encodedToponym := QueryEscape toponym
    let apiURL := Sprintf apiURLTemplate [apiKey, encodedToponym]
    match w.httpGet apiURL with
    | none => Run.exit1 .TransportError [apiURL]
    | some (statusCode, body) =>
      if statusCode ≠ 200 then Run.exit1 (.ServiceError statusCode body) [apiURL]
      else
        match w.jsonDecode body with
        | none => Run.exit1 .SchemaError [apiURL]
        | some yandexResp => processResponse w clipboardContent [apiURL] yandexResp

/-- Go `main` (main.go 71-206). -/
def main (w : World) : Run :=
  match w.readAPIKey with
  | none => Run.exit1 .ConfigError []
  | some apiKey =>
    if w.outputDirMissing && !w.mkdirAllOk then Run.exit1 .DirectoryError []
    else
      match w.clipboardReadAll with
      | none => Run.exit1 .ClipboardError []
      | some clipboardContent =>
        if clipboardContent = [] then Run.exit1 .ClipboardError []
        else
          let parts := Split clipboardContent marker
          if parts.length < 2 then Run.exit1 .MalformedFragment []
          else fromFragment w apiKey clipboardContent (parts.getD 1 [])

/-! ## Notions of the specification and sample inputs -/

/-- What `sanitizeFileName` does to one byte with one pattern. -/
def replaceByte (a b c : Nat) : Nat := if c = a then b else c

/-- The byte `sanitizeFileName` writes for the byte `c`. -/
def sanitizeByte (c : Nat) : Nat :=
  if c ∈ [92, 47, 58, 42, 63, 34, 60, 62, 124, 32] then 95 else c

/-- An occurrence of `-,P,-` in `s`: the text `pre` stands before it and `post`
behind it, the payload `P` is non-empty and holds no comma. -/
def Occurrence (s pre P post : GoString) : Prop :=
  s = pre ++ [45, 44] ++ P ++ [44, 45] ++ post ∧ P ≠ [] ∧ 44 ∉ P

/-- Every `%` of `s` is followed by two hex digits. -/
def wellEscaped : GoString → Bool
  | [] => true
  | c :: rest =>
    if c = 37 then
      match rest with
      | a :: b :: rest2 => ishex a && ishex b && wellEscaped rest2
      | _ => false
    else wellEscaped rest

/-- Percent-decoding in the words of the specification: every `%XX` is
replaced by the byte it encodes, all other bytes are unchanged. -/
def percentDecode : GoString → GoString
  | [] => []
  | [c] => [c]
  | [c, a] => c :: percentDecode [a]
  | c :: a :: b :: rest =>
    if c = 37 ∧ ishex a = true ∧ ishex b = true then
      (16 * unhex a + unhex b) :: percentDecode rest
    else c :: percentDecode (a :: b :: rest)

/-- Replace `+` by a space. -/
def plusToSpace (c : Nat) : Nat := if c = 43 then 32 else c

/-- The first occurrence of `sep` in `s` starts behind `a` and ends before `r`. -/
def FirstOccurrence (s sep a r : GoString) : Prop :=
  s = a ++ sep ++ r ∧ ∀ a2 r2, s = a2 ++ sep ++ r2 → a.length ≤ a2.length

/-- The text of `kmlTemplate` before its first verb (it ends with `<name>`). -/
def kmlHead : GoString := kmlTemplate.take 414

/-- The text of `kmlTemplate` between the verbs of the name and of the description. -/
def kmlMid : GoString := bytes "</name>\n\t\t\t<description><![CDATA["

/-- The text of `kmlTemplate` between the verbs of the description and of the longitude. -/
def kmlCoord : GoString :=
  bytes "]]></description>\n\t\t\t<styleUrl>#customIcon</styleUrl>\n\t\t\t<Point>\n\t\t\t\t<coordinates>"

/-- The text of `kmlTemplate` behind its last verb. -/
def kmlTail : GoString :=
  bytes ",0</coordinates>\n\t\t\t</Point>\n\t\t</Placemark>\n\t</Document>\n</kml>"

/-- The text of `iframeTemplate` before its verb. -/
def iframeHead : GoString := bytes "<iframe src=\""

/-- The text of `iframeTemplate` behind its verb. -/
def iframeTail : GoString := bytes "\" width=\"700\" height=\"800\" frameborder=\"0\"></iframe>"

/-- The five entities `html.EscapeString` writes. -/
def entities : List GoString :=
  [bytes "&amp;", bytes "&#39;", bytes "&lt;", bytes "&gt;", bytes "&#34;"]

/-- The run of `main` in world `w` gets as far as the decoded response: the
credential, the directory and the clipboard text `c` are fine, `c` holds the
marker, `extractToponym` succeeds on `parts[1]`, the request is answered with
status 200 and the body decodes to `resp`. -/
def ReachesResponse (w : World) (c : GoString) (resp : YandexGeocodeResponse) : Prop :=
  ∃ apiKey toponym body,
    w.readAPIKey = some apiKey ∧
    (w.outputDirMissing && !w.mkdirAllOk) = false ∧
    w.clipboardReadAll = some c ∧ c ≠ [] ∧
    marker <:+: c ∧
    extractToponym ((Split c marker).getD 1 []) = .ok toponym ∧
    w.httpGet (Sprintf apiURLTemplate [apiKey, QueryEscape toponym]) = some (200, body) ∧
    w.jsonDecode body = some resp

/-- White space in the sense of Go `unicode.IsSpace`, for ASCII bytes. -/
def isSpace (c : Nat) : Bool := c = 9 || c = 10 || c = 11 || c = 12 || c = 13 || c = 32

/-- The whitespace-separated tokens of `s` (maximal runs of bytes that are not
white space), `cur` being the token under construction. -/
def tokensFrom : GoString → GoString → List GoString
  | cur, [] => if cur = [] then [] else [cur]
  | cur, c :: s =>
    if isSpace c then (if cur = [] then tokensFrom [] s else cur :: tokensFrom [] s)
    else tokensFrom (cur ++ [c]) s

/-- The whitespace-separated tokens of `s`, in the words of the specification. -/
def tokens (s : GoString) : List GoString := tokensFrom [] s

/-- A world in which every collaborator succeeds: the clipboard holds
`clipboard`, every request is answered with status 200 and the body decodes to
`resp`. -/
def sampleWorld (clipboard : GoString) (resp : YandexGeocodeResponse) : World where
  readAPIKey := some (bytes "KEY")
  outputDirMissing := false
  mkdirAllOk := true
  clipboardReadAll := some clipboard
  httpGet := fun _ => some (200, bytes "json")
  jsonDecode := fun _ => some resp
  pathSeparator := 92
  writeFileOk := true

/-- The clipboard text of the end-to-end scenario of the specification. -/
def eiffelClipboard : GoString := bytes "https://maps.example/place#:~:text=-,Eiffel%20Tower,-x"

/-- A response with one feature. -/
def oneFeature (name pos : GoString) : YandexGeocodeResponse :=
  { featureMember := [{ name := name, pos := pos }] }

/-- A clipboard text that holds the marker twice. -/
def twoMarkers : GoString := bytes "https://maps.example/#:~:text=Paris#:~:text=Rome"

/-- A clipboard text with characters that `html.EscapeString` replaces. -/
def ampClipboard : GoString := bytes "https://m.example/?a=1&b=<x>#:~:text=Rome"

/-! # Theorems -/

/-! ## Lemmas on `Index` -/

theorem index_some_iff (sep : GoString) : ∀ (s : GoString) (m : Nat),
    Index s sep = some m ↔
      (sep <+: s.drop m ∧ m ≤ s.length ∧ ∀ k, k < m → ¬ sep <+: s.drop k) := by
  intro s
  induction s with
  | nil =>
    intro m
    by_cases hs : sep = []
    · subst hs
      cases m <;> simp [Index]
    · simp [Index, hs]
  | cons c t ih =>
    intro m
    by_cases hp : sep <+: c :: t
    · have hb : sep.isPrefixOf (c :: t) = true := List.isPrefixOf_iff_prefix.mpr hp
      cases m with
      | zero => simp [Index, hb, hp]
      | succ m =>
        simp only [Index, hb, if_true]
        constructor
        · intro h; cases h
        · rintro ⟨_, _, h3⟩
          exact absurd hp (h3 0 (Nat.succ_pos m))
    · have hb : sep.isPrefixOf (c :: t) = false := by
        cases h : sep.isPrefixOf (c :: t)
        · rfl
        · exact absurd (List.isPrefixOf_iff_prefix.mp h) hp
      cases m with
      | zero => simp [Index, hb, hp]
      | succ m =>
        simp only [Index, hb, Bool.false_eq_true, if_false, Option.map_eq_some', List.drop_succ_cons,
          List.length_cons, Nat.add_le_add_iff_right]
        constructor
        · rintro ⟨a, ha, ham⟩
          obtain rfl : a = m := by omega
          obtain ⟨h1, h2, h3⟩ := (ih a).mp ha
          refine ⟨h1, h2, ?_⟩
          intro k hk
          cases k with
          | zero => simpa using hp
          | succ k => simpa using h3 k (by omega)
        · rintro ⟨h1, h2, h3⟩
          refine ⟨m, (ih m).mpr ⟨h1, h2, ?_⟩, rfl⟩
          intro k hk
          simpa using h3 (k + 1) (by omega)

theorem index_none_iff (sep : GoString) : ∀ (s : GoString),
    Index s sep = none ↔ ¬ sep <:+: s := by
  intro s
  induction s with
  | nil =>
    by_cases hs : sep = []
    · subst hs; simp [Index]
    · simp [Index, hs]
  | cons c t ih =>
    by_cases hp : sep <+: c :: t
    · have hb : sep.isPrefixOf (c :: t) = true := List.isPrefixOf_iff_prefix.mpr hp
      simp [Index, hb, hp.isInfix]
    · have hb : sep.isPrefixOf (c :: t) = false := by
        cases h : sep.isPrefixOf (c :: t)
        · rfl
        · exact absurd (List.isPrefixOf_iff_prefix.mp h) hp
      simp [Index, hb, ih, List.infix_cons_iff, hp]

/-! ## Lemmas on `ReplaceAll` and `sanitizeFileName` -/

theorem index_cons_single (a c : Nat) (t : GoString) :
    Index (c :: t) [a] = if c = a then some 0 else (Index t [a]).map (· + 1) := by
  by_cases h : c = a
  · subst h; simp [Index, List.isPrefixOf]
  · have h2 : ¬ a = c := fun e => h e.symm
    simp [Index, List.isPrefixOf, h, h2]

theorem replaceLoop_single (a b : Nat) : ∀ (s : GoString) (n : Nat), s.length ≤ n →
    replaceLoop [a] [b] n s = s.map (replaceByte a b) := by
  intro s
  induction s with
  | nil => intro n _; cases n <;> simp [replaceLoop, Index]
  | cons c t ih =>
    intro n hn
    cases n with
    | zero => simp at hn
    | succ n =>
      have hn2 : t.length ≤ n := by simpa using hn
      have h1 := ih (n + 1) (by omega)
      have h0 := ih n hn2
      simp only [replaceLoop, index_cons_single] at h1 ⊢
      by_cases hc : c = a
      · simp [hc, h0, replaceByte]
      · have hb : replaceByte a b c = c := by simp [replaceByte, hc]
        rw [List.map_cons, hb, ← h1]
        cases hi : Index t [a] <;> simp [hc]

theorem ReplaceAll_single (a b : Nat) (s : GoString) :
    ReplaceAll s [a] [b] = s.map (replaceByte a b) :=
  replaceLoop_single a b s s.length (Nat.le_refl _)

theorem sanitizeFileName_eq_map (name : GoString) :
    sanitizeFileName name = name.map sanitizeByte := by
  simp only [sanitizeFileName, forbiddenChars, List.foldl_cons, List.foldl_nil, ReplaceAll_single,
    List.map_map]
  apply List.map_congr_left
  intro c _
  simp only [Function.comp]
  by_cases h : c ∈ [92, 47, 58, 42, 63, 34, 60, 62, 124, 32]
  · simp only [List.mem_cons, List.mem_singleton, List.mem_nil_iff, or_false] at h
    rcases h with rfl | rfl | rfl | rfl | rfl | rfl | rfl | rfl | rfl | rfl <;> rfl
  · have h2 := h
    simp only [List.mem_cons, List.mem_singleton, List.mem_nil_iff, or_false, not_or] at h2
    obtain ⟨h92, h47, h58, h42, h63, h34, h60, h62, h124, h32⟩ := h2
    simp [replaceByte, sanitizeByte, h92, h47, h58, h42, h63, h34, h60, h62, h124, h32]

theorem sanitizeByte_not_forbidden (c : Nat) :
    sanitizeByte c ∉ [92, 47, 58, 42, 63, 34, 60, 62, 124, 32] := by
  unfold sanitizeByte
  split_ifs with h
  · decide
  · exact h

theorem sanitizeByte_idem (c : Nat) : sanitizeByte (sanitizeByte c) = sanitizeByte c := by
  have h := sanitizeByte_not_forbidden c
  show (if sanitizeByte c ∈ [92, 47, 58, 42, 63, 34, 60, 62, 124, 32] then 95
    else sanitizeByte c) = sanitizeByte c
  rw [if_neg h]

/-- C3: `sanitizeFileName` is total, and its result holds none of the ten
reserved bytes: backslash, slash, colon, asterisk, question mark, double quote,
less-than, greater-than, pipe and space. -/
theorem sanitizeFileName_clean (name : GoString) (c : Nat)
    (hc : c ∈ [92, 47, 58, 42, 63, 34, 60, 62, 124, 32]) : c ∉ sanitizeFileName name := by
  rw [sanitizeFileName_eq_map]
  intro hmem
  obtain ⟨d, _, rfl⟩ := List.mem_map.mp hmem
  exact sanitizeByte_not_forbidden d hc

theorem sanitizeFileName_clean_witness :
    (32 : Nat) ∈ [92, 47, 58, 42, 63, 34, 60, 62, 124, 32] ∧
      sanitizeFileName (bytes "a b/c") = bytes "a_b_c" ∧
      (32 : Nat) ∉ sanitizeFileName (bytes "a b/c") :=
  ⟨by decide, by decide, sanitizeFileName_clean (bytes "a b/c") 32 (by decide)⟩

/-- C4: `sanitizeFileName` is idempotent: sanitizing a sanitized name changes
nothing. -/
theorem sanitizeFileName_idempotent (name : GoString) :
    sanitizeFileName (sanitizeFileName name) = sanitizeFileName name := by
  simp only [sanitizeFileName_eq_map, List.map_map]
  apply List.map_congr_left
  intro c _
  exact sanitizeByte_idem c

/-! ## Lemmas on the pattern of `extractToponym` -/

theorem isPrefixOf_comma_dash (c : Nat) (t : GoString) :
    ([44, 45] : GoString).isPrefixOf (c :: t) = true ↔ c = 44 ∧ ∃ u, t = 45 :: u := by
  cases t with
  | nil => simp [List.isPrefixOf]
  | cons d u =>
    simp only [List.isPrefixOf, Bool.and_true, Bool.and_eq_true, beq_iff_eq, List.cons.injEq,
      exists_and_left, exists_eq', and_true]
    constructor
    · rintro ⟨h1, h2⟩; exact ⟨h1.symm, h2.symm⟩
    · rintro ⟨h1, h2⟩; exact ⟨h1.symm, h2.symm⟩

theorem matchGroup_eq_some : ∀ (rest acc g : GoString),
    matchGroup acc rest = some g ↔
      ∃ q post, rest = q ++ [44, 45] ++ post ∧ 44 ∉ q ∧ g = acc ++ q := by
  intro rest
  induction rest with
  | nil => intro acc g; simp [matchGroup]
  | cons c t ih =>
    intro acc g
    unfold matchGroup
    by_cases hp : ([44, 45] : GoString).isPrefixOf (c :: t) = true
    · rw [if_pos hp]
      obtain ⟨rfl, u, rfl⟩ := (isPrefixOf_comma_dash c t).mp hp
      constructor
      · intro h
        cases h
        exact ⟨[], u, by simp, by simp, by simp⟩
      · rintro ⟨q, post, h1, h2, h3⟩
        cases q with
        | nil => simp [h3]
        | cons x q =>
          simp only [List.cons_append, List.cons.injEq] at h1
          exact absurd (h1.1 ▸ List.mem_cons_self _ _) h2
    · rw [if_neg hp]
      by_cases hc : c = 44
      · subst hc
        simp only [ne_eq, not_true_eq_false, if_false]
        constructor
        · intro h; cases h
        · rintro ⟨q, post, h1, h2, _⟩
          cases q with
          | nil =>
            simp only [List.nil_append, List.cons_append, List.cons.injEq, true_and] at h1
            exact absurd ((isPrefixOf_comma_dash 44 t).mpr ⟨rfl, post, h1⟩) hp
          | cons x q =>
            simp only [List.cons_append, List.cons.injEq] at h1
            exact absurd (h1.1 ▸ List.mem_cons_self _ _) h2
      · rw [if_pos hc, ih]
        constructor
        · rintro ⟨q, post, h1, h2, h3⟩
          refine ⟨c :: q, post, by simp [h1], ?_, by simp [h3]⟩
          simp only [List.mem_cons, not_or]
          exact ⟨fun e => hc e.symm, h2⟩
        · rintro ⟨q, post, h1, h2, h3⟩
          cases q with
          | nil =>
            simp only [List.nil_append, List.cons_append, List.cons.injEq] at h1
            exact absurd h1.1 hc
          | cons x q =>
            simp only [List.cons_append, List.cons.injEq] at h1
            obtain ⟨rfl, rfl⟩ := h1
            simp only [List.mem_cons, not_or] at h2
            exact ⟨q, post, by simp, h2.2, by simp [h3]⟩

theorem matchHere_eq_some (s g : GoString) :
    matchHere s = some g ↔ ∃ post, Occurrence s [] g post := by
  unfold Occurrence
  match s with
  | [] => simp [matchHere]
  | [a] => simp [matchHere]
  | [a, b] => simp [matchHere]
  | a :: b :: c :: rest =>
    simp only [matchHere]
    by_cases h : a = 45 ∧ b = 44 ∧ c ≠ 44
    · rw [if_pos h, matchGroup_eq_some]
      obtain ⟨rfl, rfl, hc⟩ := h
      constructor
      · rintro ⟨q, post, h1, h2, h3⟩
        refine ⟨post, by simp [h1, h3], by simp [h3], ?_⟩
        subst h3
        simp only [List.singleton_append, List.mem_cons, not_or]
        exact ⟨fun e => hc e.symm, h2⟩
      · rintro ⟨post, h1, h2, h3⟩
        cases g with
        | nil => exact absurd rfl h2
        | cons x q =>
          simp only [List.nil_append, List.cons_append, List.cons.injEq, true_and] at h1
          obtain ⟨rfl, h1⟩ := h1
          simp only [List.mem_cons, not_or] at h3
          exact ⟨q, post, by simpa using h1, h3.2, by simp⟩
    · rw [if_neg h]
      constructor
      · intro h; cases h
      · rintro ⟨post, h1, h2, h3⟩
        exfalso
        apply h
        cases g with
        | nil => exact absurd rfl h2
        | cons x q =>
          simp only [List.nil_append, List.cons_append, List.cons.injEq] at h1
          obtain ⟨rfl, rfl, rfl, _⟩ := h1
          simp only [List.mem_cons, not_or] at h3
          exact ⟨rfl, rfl, fun e => h3.1 e.symm⟩

theorem find_of_leftmost : ∀ (pre s P post : GoString), Occurrence s pre P post →
    (∀ pre2 P2 post2, Occurrence s pre2 P2 post2 → pre.length ≤ pre2.length) →
    FindStringSubmatch s = [[45, 44] ++ P ++ [44, 45], P] := by
  intro pre
  induction pre with
  | nil =>
    intro s P post hocc _
    have hm : matchHere s = some P := (matchHere_eq_some s P).mpr ⟨post, hocc⟩
    obtain ⟨hs, _, _⟩ := hocc
    cases s with
    | nil => simp at hs
    | cons c t => simp [FindStringSubmatch, hm]
  | cons x pre ih =>
    intro s P post hocc hleft
    have hm : matchHere s = none := by
      cases h : matchHere s with
      | none => rfl
      | some g =>
        obtain ⟨post2, h2⟩ := (matchHere_eq_some s g).mp h
        have := hleft [] g post2 h2
        simp at this
    obtain ⟨hs, hP, hc⟩ := hocc
    cases s with
    | nil => simp at hs
    | cons c t =>
      simp only [List.cons_append, List.cons.injEq] at hs
      obtain ⟨rfl, ht⟩ := hs
      have hrec := ih t P post ⟨by simpa using ht, hP, hc⟩ (by
        intro pre2 P2 post2 ⟨h1, h2, h3⟩
        have := hleft (c :: pre2) P2 post2 ⟨by simp [h1], h2, h3⟩
        simpa using this)
      simp only [FindStringSubmatch, hm]
      exact hrec

theorem find_nil : ∀ (s : GoString), (∀ pre P post, ¬ Occurrence s pre P post) →
    FindStringSubmatch s = [] := by
  intro s
  induction s with
  | nil => intro _; rfl
  | cons c t ih =>
    intro hno
    have hm : matchHere (c :: t) = none := by
      cases h : matchHere (c :: t) with
      | none => rfl
      | some g =>
        obtain ⟨post2, h2⟩ := (matchHere_eq_some _ g).mp h
        exact absurd h2 (hno [] g post2)
    simp only [FindStringSubmatch, hm]
    apply ih
    intro pre P post ⟨h1, h2, h3⟩
    exact hno (c :: pre) P post ⟨by simp [h1], h2, h3⟩

theorem exists_leftmost (s : GoString) (h : ∃ pre P post, Occurrence s pre P post) :
    ∃ pre P post, Occurrence s pre P post ∧
      ∀ pre2 P2 post2, Occurrence s pre2 P2 post2 → pre.length ≤ pre2.length := by
  classical
  have hex : ∃ n, ∃ pre P post, Occurrence s pre P post ∧ pre.length = n := by
    obtain ⟨pre, P, post, ho⟩ := h
    exact ⟨pre.length, pre, P, post, ho, rfl⟩
  obtain ⟨pre, P, post, ho, hlen⟩ := Nat.find_spec hex
  refine ⟨pre, P, post, ho, ?_⟩
  intro pre2 P2 post2 h2
  rw [hlen]
  exact Nat.find_min' hex ⟨pre2, P2, post2, h2, rfl⟩

theorem extractToponym_of_leftmost (s pre P post : GoString) (hocc : Occurrence s pre P post)
    (hleft : ∀ pre2 P2 post2, Occurrence s pre2 P2 post2 → pre.length ≤ pre2.length) :
    extractToponym s =
      match QueryUnescape P with
      | .ok t => .ok t
      | .error e => .error (.escape e) := by
  unfold extractToponym
  rw [find_of_leftmost pre s P post hocc hleft]
  rfl

theorem extractToponym_of_none (s : GoString) (hno : ∀ pre P post, ¬ Occurrence s pre P post) :
    extractToponym s =
      match QueryUnescape s with
      | .error e => .error (.decode e)
      | .ok decoded =>
        match Index decoded [38] with
        | some idx => .ok (decoded.take idx)
        | none => .ok decoded := by
  unfold extractToponym
  rw [find_nil s hno]
  rfl

theorem take_index_amp : ∀ (d : GoString),
    (match Index d [38] with
      | some idx => d.take idx
      | none => d) = d.takeWhile (fun c => c != 38) := by
  intro d
  induction d with
  | nil => simp [Index]
  | cons c t ih =>
    rw [index_cons_single]
    by_cases hc : c = 38
    · simp [hc]
    · rw [if_neg hc, List.takeWhile_cons_of_pos (by simpa using hc), ← ih]
      cases Index t [38] <;> simp

/-! ## Lemmas on `QueryUnescape` -/

theorem pct_induction {motive : GoString → Prop} (hnil : motive [])
    (hesc : ∀ a b rest, motive rest → motive (37 :: a :: b :: rest))
    (hshort : ∀ rest, rest.length < 2 → motive (37 :: rest))
    (hother : ∀ c rest, c ≠ 37 → motive rest → motive (c :: rest)) :
    ∀ s, motive s := by
  suffices h : ∀ n (s : GoString), s.length = n → motive s from fun s => h _ s rfl
  intro n
  induction n using Nat.strong_induction_on with
  | _ n ih =>
    intro s h
    match s, h with
    | [], _ => exact hnil
    | c :: rest, h =>
      by_cases hc : c = 37
      · subst hc
        match rest, h with
        | [], _ => exact hshort [] (by simp)
        | [a], _ => exact hshort [a] (by simp)
        | a :: b :: rest2, h =>
          exact hesc a b rest2 (ih rest2.length (by simp at h; omega) rest2 rfl)
      · exact hother c rest hc (ih rest.length (by simp at h; omega) rest rfl)

theorem unescapeScan_short (rest : GoString) (h : rest.length < 2) :
    unescapeScan (37 :: rest) = .error (37 :: rest) := by
  match rest, h with
  | [], _ => simp [unescapeScan]
  | [a], _ => simp [unescapeScan]

theorem wellEscaped_short (rest : GoString) (h : rest.length < 2) :
    wellEscaped (37 :: rest) = false := by
  match rest, h with
  | [], _ => simp [wellEscaped]
  | [a], _ => simp [wellEscaped]

theorem wellEscaped_cons_ne (c : Nat) (rest : GoString) (hc : c ≠ 37) :
    wellEscaped (c :: rest) = wellEscaped rest := by
  conv_lhs => unfold wellEscaped
  simp [hc]

theorem unescapeScan_cons_plus (rest : GoString) :
    unescapeScan (43 :: rest) =
      match unescapeScan rest with
      | .ok (n, _) => .ok (n, true)
      | .error e => .error e := by
  conv_lhs => unfold unescapeScan
  simp only [show ¬ (43 : Nat) = 37 by decide, if_false, if_true]

theorem unescapeScan_cons_ne (c : Nat) (rest : GoString) (hc : c ≠ 37) (h43 : c ≠ 43) :
    unescapeScan (c :: rest) = unescapeScan rest := by
  conv_lhs => unfold unescapeScan
  simp [hc, h43]

theorem unescapeBuild_cons_plus (rest : GoString) :
    unescapeBuild (43 :: rest) = 32 :: unescapeBuild rest := by
  conv_lhs => unfold unescapeBuild
  simp

theorem unescapeBuild_cons_ne (c : Nat) (rest : GoString) (hc : c ≠ 37) (h43 : c ≠ 43) :
    unescapeBuild (c :: rest) = c :: unescapeBuild rest := by
  conv_lhs => unfold unescapeBuild
  simp [hc, h43]

theorem percentDecode_cons_ne (c : Nat) (rest : GoString) (hc : c ≠ 37) :
    percentDecode (c :: rest) = c :: percentDecode rest := by
  match rest with
  | [] => simp [percentDecode]
  | [a] => simp [percentDecode]
  | a :: b :: rest2 => simp [percentDecode, hc]

theorem unescapeScan_eq : ∀ s : GoString,
    (wellEscaped s = true → ∃ n hp, unescapeScan s = .ok (n, hp) ∧
        ((n = 0 ∧ hp = false) → unescapeBuild s = s)) ∧
    (wellEscaped s = false → ∃ e, unescapeScan s = .error e) := by
  intro s
  induction s using pct_induction with
  | hnil => simp [wellEscaped, unescapeScan, unescapeBuild]
  | hesc a b rest ih =>
    by_cases hh : (ishex a && ishex b) = true
    · simp only [wellEscaped, unescapeScan, hh, if_true, Bool.true_and]
      constructor
      · intro hw
        obtain ⟨n, hp, h1, _⟩ := ih.1 hw
        exact ⟨n + 1, hp, by simp [h1], by simp⟩
      · intro hw
        obtain ⟨e, h1⟩ := ih.2 hw
        exact ⟨e, by simp [h1]⟩
    · simp [wellEscaped, unescapeScan, hh]
  | hshort rest hr =>
    simp [wellEscaped_short rest hr, unescapeScan_short rest hr]
  | hother c rest hc ih =>
    by_cases h43 : c = 43
    · subst h43
      rw [wellEscaped_cons_ne _ _ hc, unescapeScan_cons_plus]
      constructor
      · intro hw
        obtain ⟨n, hp, h1, _⟩ := ih.1 hw
        exact ⟨n, true, by simp [h1], by simp⟩
      · intro hw
        obtain ⟨e, h1⟩ := ih.2 hw
        exact ⟨e, by simp [h1]⟩
    · rw [wellEscaped_cons_ne _ _ hc, unescapeScan_cons_ne _ _ hc h43]
      constructor
      · intro hw
        obtain ⟨n, hp, h1, h2⟩ := ih.1 hw
        refine ⟨n, hp, h1, ?_⟩
        intro h0
        rw [unescapeBuild_cons_ne _ _ hc h43, h2 h0]
      · exact ih.2

theorem QueryUnescape_of_wellEscaped (s : GoString) (h : wellEscaped s = true) :
    QueryUnescape s = .ok (unescapeBuild s) := by
  obtain ⟨n, hp, h1, h2⟩ := (unescapeScan_eq s).1 h
  unfold QueryUnescape
  rw [h1]
  by_cases h0 : n = 0 ∧ hp = false
  · simp only [h0, and_self, if_true]
    rw [h2 h0]
  · simp only [h0, if_false]

theorem QueryUnescape_of_not_wellEscaped (s : GoString) (h : wellEscaped s = false) :
    ∃ e, QueryUnescape s = .error e := by
  obtain ⟨e, h1⟩ := (unescapeScan_eq s).2 h
  exact ⟨e, by unfold QueryUnescape; rw [h1]⟩

theorem shift_or (hi : Nat) (h1 : hi < 16) (lo : Nat) (h2 : lo < 16) :
    (hi <<< 4 ||| lo) = 16 * hi + lo := by
  revert lo
  revert hi
  decide

theorem unhex_lt (c : Nat) : unhex c < 16 := by
  unfold unhex
  split_ifs <;> omega

theorem ishex_ne (a : Nat) (h : ishex a = true) : a ≠ 43 ∧ a ≠ 37 := by
  constructor <;> rintro rfl <;> revert h <;> decide

theorem unescapeBuild_eq : ∀ s : GoString, wellEscaped s = true →
    unescapeBuild s = percentDecode (s.map plusToSpace) := by
  intro s
  induction s using pct_induction with
  | hnil => intro _; rfl
  | hesc a b rest ih =>
    intro hw
    simp only [wellEscaped, if_true, Bool.and_eq_true] at hw
    obtain ⟨⟨ha, hb⟩, hr⟩ := hw
    have ha2 : plusToSpace a = a := by simp [plusToSpace, (ishex_ne a ha).1]
    have hb2 : plusToSpace b = b := by simp [plusToSpace, (ishex_ne b hb).1]
    have h37 : plusToSpace 37 = 37 := by decide
    simp only [List.map_cons, h37, ha2, hb2, percentDecode, unescapeBuild, if_true, ha, hb,
      Bool.and_self, ih hr, shift_or _ (unhex_lt a) _ (unhex_lt b), and_self]
  | hshort rest hr => intro hw; simp [wellEscaped_short rest hr] at hw
  | hother c rest hc ih =>
    intro hw
    rw [wellEscaped_cons_ne _ _ hc] at hw
    by_cases h43 : c = 43
    · subst h43
      have h32 : plusToSpace 43 = 32 := by decide
      rw [unescapeBuild_cons_plus, List.map_cons, h32, percentDecode_cons_ne _ _ (by decide),
        ih hw]
    · have hcc : plusToSpace c = c := by simp [plusToSpace, h43]
      rw [unescapeBuild_cons_ne _ _ hc h43, List.map_cons, hcc, percentDecode_cons_ne _ _ hc,
        ih hw]

theorem unescapeBuild_eq_nil : ∀ s : GoString, wellEscaped s = true →
    (unescapeBuild s = [] ↔ s = []) := by
  intro s
  induction s using pct_induction with
  | hnil => intro _; simp [unescapeBuild]
  | hesc a b rest _ => intro _; simp [unescapeBuild]
  | hshort rest hr => intro hw; simp [wellEscaped_short rest hr] at hw
  | hother c rest hc _ =>
    intro _
    by_cases h43 : c = 43
    · subst h43; simp [unescapeBuild_cons_plus]
    · simp [unescapeBuild_cons_ne _ _ hc h43]

/-! ## The two branches of `extractToponym` -/

theorem no_occurrence_of_find_nil (s : GoString) (h : FindStringSubmatch s = []) :
    ∀ pre P post, ¬ Occurrence s pre P post := by
  intro pre P post hocc
  obtain ⟨pre1, P1, post1, h1, hl⟩ := exists_leftmost s ⟨pre, P, post, hocc⟩
  rw [find_of_leftmost pre1 s P1 post1 h1 hl] at h
  cases h

theorem takeWhile_amp_eq_nil (d : GoString) :
    d.takeWhile (fun c => c != 38) = [] ↔ (d = [] ∨ d.head? = some 38) := by
  cases d with
  | nil => simp
  | cons c t =>
    by_cases hc : c = 38
    · simp [hc]
    · simp [List.takeWhile_cons, hc]

/-- C1 (amended): when the fragment holds an occurrence of `-,P,-` (P non-empty
and without a comma), `extractToponym` returns `url.QueryUnescape` of the payload
P of the leftmost occurrence and does not use the fallback branch.  If every `%`
of P is followed by two hex digits, the result is the percent-decoded payload
after every `+` of P has been replaced by a space; otherwise the result is the
escape error of `url.QueryUnescape`, not wrapped as a decode error. -/
theorem extractToponym_structured (s pre P post : GoString) (hocc : Occurrence s pre P post)
    (hleft : ∀ pre2 P2 post2, Occurrence s pre2 P2 post2 → pre.length ≤ pre2.length) :
    (wellEscaped P = true → extractToponym s = .ok (percentDecode (P.map plusToSpace))) ∧
    (wellEscaped P = false → ∃ e, extractToponym s = .error (.escape e)) := by
  have h := extractToponym_of_leftmost s pre P post hocc hleft
  constructor
  · intro hw
    rw [h, QueryUnescape_of_wellEscaped P hw, unescapeBuild_eq P hw]
  · intro hw
    obtain ⟨e, he⟩ := QueryUnescape_of_not_wellEscaped P hw
    exact ⟨e, by rw [h, he]⟩

theorem extractToponym_structured_witness :
    Occurrence (bytes "-,Red%20Square,-rest") [] (bytes "Red%20Square") (bytes "rest") ∧
      percentDecode ((bytes "Red%20Square").map plusToSpace) = bytes "Red Square" ∧
      extractToponym (bytes "-,Red%20Square,-rest") =
        .ok (percentDecode ((bytes "Red%20Square").map plusToSpace)) :=
  ⟨by unfold Occurrence; decide, by decide,
    (extractToponym_structured (bytes "-,Red%20Square,-rest") [] (bytes "Red%20Square")
      (bytes "rest") (by unfold Occurrence; decide) (fun _ _ _ _ => Nat.zero_le _)).1
      (by decide)⟩

theorem extractToponym_structured_counterexample :
    Occurrence (bytes "-,a+b,-") [] (bytes "a+b") [] ∧
      percentDecode (bytes "a+b") = bytes "a+b" ∧
      extractToponym (bytes "-,a+b,-") = .ok (bytes "a b") ∧
      extractToponym (bytes "-,a+b,-") ≠ .ok (percentDecode (bytes "a+b")) ∧
      Occurrence (bytes "-,50%,-") [] (bytes "50%") [] ∧
      percentDecode (bytes "50%") = bytes "50%" ∧
      extractToponym (bytes "-,50%,-") = .error (.escape (bytes "%")) ∧
      extractToponym (bytes "-,50%,-") ≠ .ok (percentDecode (bytes "50%")) :=
  ⟨by unfold Occurrence; decide, by decide, by decide, by decide,
    by unfold Occurrence; decide, by decide, by decide, by decide⟩

theorem fallback_eq (s : GoString) (hno : ∀ pre P post, ¬ Occurrence s pre P post) :
    extractToponym s =
      match QueryUnescape s with
      | .error e => .error (.decode e)
      | .ok decoded => .ok (decoded.takeWhile (fun c => c != 38)) := by
  rw [extractToponym_of_none s hno]
  cases QueryUnescape s with
  | error e => rfl
  | ok d =>
    show (match Index d [38] with
      | some idx => (Except.ok (d.take idx) : Except ExtractError GoString)
      | none => .ok d) = .ok (d.takeWhile (fun c => c != 38))
    rw [← take_index_amp d]
    cases Index d [38] <;> rfl

/-- C2: when the fragment holds no occurrence of `-,P,-`, `extractToponym` fails
with the decode error exactly when `url.QueryUnescape` of the whole fragment
fails, and otherwise returns the decoded text cut off just before its first `&`
(all of it when it holds no `&`). -/
theorem extractToponym_fallback (s : GoString) (hno : ∀ pre P post, ¬ Occurrence s pre P post) :
    extractToponym s =
      match QueryUnescape s with
      | .error e => .error (.decode e)
      | .ok decoded => .ok (decoded.takeWhile (fun c => c != 38)) :=
  fallback_eq s hno

theorem extractToponym_fallback_witness :
    (∀ pre P post, ¬ Occurrence (bytes "Red%20Square&foo=bar") pre P post) ∧
      extractToponym (bytes "Red%20Square&foo=bar") = .ok (bytes "Red Square") ∧
      extractToponym (bytes "Red%2") = .error (.decode (bytes "%2")) :=
  ⟨no_occurrence_of_find_nil _ (by decide),
    (extractToponym_fallback (bytes "Red%20Square&foo=bar")
      (no_occurrence_of_find_nil _ (by decide))).trans (by decide),
    by decide⟩

/-- C7 (amended): when `extractToponym` returns the toponym `t` without error,
`t` is empty exactly when the fragment holds no occurrence of `-,P,-` and its
decoded text is empty or begins with `&`; in every other case `t` is non-empty. -/
theorem extractToponym_empty_iff (f t : GoString) (h : extractToponym f = .ok t) :
    t = [] ↔
      ((∀ pre P post, ¬ Occurrence f pre P post) ∧
        ∃ d, QueryUnescape f = .ok d ∧ (d = [] ∨ d.head? = some 38)) := by
  by_cases hex : ∃ pre P post, Occurrence f pre P post
  · obtain ⟨pre, P, post, hocc, hleft⟩ := exists_leftmost f hex
    have hs := extractToponym_of_leftmost f pre P post hocc hleft
    have hne : t ≠ [] := by
      cases hw : wellEscaped P with
      | false =>
        obtain ⟨e, he⟩ := QueryUnescape_of_not_wellEscaped P hw
        rw [he] at hs
        rw [hs] at h
        cases h
      | true =>
        rw [QueryUnescape_of_wellEscaped P hw] at hs
        rw [hs] at h
        cases h
        intro h0
        exact hocc.2.1 ((unescapeBuild_eq_nil P hw).mp h0)
    constructor
    · intro h0; exact absurd h0 hne
    · rintro ⟨hno, _⟩
      obtain ⟨pre, P, post, ho⟩ := hex
      exact absurd ho (hno pre P post)
  · have hno : ∀ pre P post, ¬ Occurrence f pre P post := by
      intro pre P post ho
      exact hex ⟨pre, P, post, ho⟩
    have h2 := fallback_eq f hno
    rw [h] at h2
    cases hq : QueryUnescape f with
    | error e => rw [hq] at h2; cases h2
    | ok d =>
      rw [hq] at h2
      have h3 : t = d.takeWhile (fun c => c != 38) := by
        injection h2
      rw [h3, takeWhile_amp_eq_nil]
      constructor
      · intro h0; exact ⟨hno, d, rfl, h0⟩
      · rintro ⟨_, d2, hd, h0⟩
        cases hd
        exact h0

theorem extractToponym_empty_iff_witness :
    extractToponym (bytes "&foo=bar") = .ok [] ∧
      (([] : GoString) = [] ↔
        ((∀ pre P post, ¬ Occurrence (bytes "&foo=bar") pre P post) ∧
          ∃ d, QueryUnescape (bytes "&foo=bar") = .ok d ∧ (d = [] ∨ d.head? = some 38))) :=
  ⟨by decide, extractToponym_empty_iff (bytes "&foo=bar") [] (by decide)⟩

theorem extractToponym_empty_counterexample :
    extractToponym (bytes "") = .ok (bytes "") ∧ bytes "" = [] ∧
      extractToponym (bytes "&foo=bar") = .ok [] :=
  ⟨by decide, by decide, by decide⟩

/-! ## Lemmas on `Split` -/

theorem index_nil (sep : GoString) (h : sep ≠ []) : Index [] sep = none := by
  simp [Index, h]

theorem genSplit_fuel (sep : GoString) (hsep : sep ≠ []) : ∀ (n1 n2 : Nat) (s : GoString),
    s.length ≤ n1 → s.length ≤ n2 → genSplit sep n1 s = genSplit sep n2 s := by
  intro n1
  induction n1 with
  | zero =>
    intro n2 s h1 _
    have hs : s = [] := List.length_eq_zero.mp (Nat.le_zero.mp h1)
    subst hs
    cases n2 with
    | zero => rfl
    | succ n2 => simp [genSplit, index_nil sep hsep]
  | succ n1 ih =>
    intro n2 s h1 h2
    cases n2 with
    | zero =>
      have hs : s = [] := List.length_eq_zero.mp (Nat.le_zero.mp h2)
      subst hs
      simp [genSplit, index_nil sep hsep]
    | succ n2 =>
      simp only [genSplit]
      cases hi : Index s sep with
      | none => rfl
      | some m =>
        have hpos : 0 < sep.length := List.length_pos.mpr hsep
        have hd : (s.drop (m + sep.length)).length ≤ s.length - 1 := by
          rw [List.length_drop]; omega
        simp only
        rw [ih n2 (s.drop (m + sep.length)) (by omega) (by omega)]

theorem Split_eq (s sep : GoString) (hsep : sep ≠ []) :
    Split s sep =
      match Index s sep with
      | none => [s]
      | some m => s.take m :: Split (s.drop (m + sep.length)) sep := by
  unfold Split
  cases hl : s.length with
  | zero =>
    have hs : s = [] := List.length_eq_zero.mp hl
    subst hs
    simp [genSplit, index_nil sep hsep]
  | succ n =>
    simp only [genSplit]
    cases hi : Index s sep with
    | none => rfl
    | some m =>
      have hpos : 0 < sep.length := List.length_pos.mpr hsep
      simp only
      rw [genSplit_fuel sep hsep n _ (s.drop (m + sep.length)) (by rw [List.length_drop]; omega)
        (Nat.le_refl _)]

theorem Split_ne_nil (s sep : GoString) (hsep : sep ≠ []) : Split s sep ≠ [] := by
  rw [Split_eq s sep hsep]
  cases Index s sep <;> simp

theorem Split_length_lt_two (s sep : GoString) (hsep : sep ≠ []) :
    (Split s sep).length < 2 ↔ ¬ sep <:+: s := by
  rw [← index_none_iff, Split_eq s sep hsep]
  cases hi : Index s sep with
  | none => simp
  | some m =>
    have h := Split_ne_nil (s.drop (m + sep.length)) sep hsep
    have hpos := List.length_pos.mpr h
    simp only [List.length_cons, reduceCtorEq, iff_false, not_lt]
    omega

theorem index_of_first (s sep a r : GoString) (h : FirstOccurrence s sep a r) :
    Index s sep = some a.length := by
  obtain ⟨hs, hmin⟩ := h
  rw [index_some_iff]
  refine ⟨?_, ?_, ?_⟩
  · rw [hs]
    simp [List.append_assoc]
  · rw [hs]; simp
  · intro k hk hpre
    obtain ⟨r2, hr2⟩ := hpre
    have hk2 : k ≤ s.length := by
      have : a.length ≤ s.length := by rw [hs]; simp
      omega
    have h2 := hmin (s.take k) r2 (by
      rw [List.append_assoc, hr2, List.take_append_drop])
    rw [List.length_take, Nat.min_eq_left hk2] at h2
    omega

theorem first_of_index (s sep : GoString) (m : Nat) (h : Index s sep = some m) :
    FirstOccurrence s sep (s.take m) (s.drop (m + sep.length)) ∧ (s.take m).length = m := by
  obtain ⟨⟨r, hr⟩, hm, hmin⟩ := (index_some_iff sep s m).mp h
  have hlen : (s.take m).length = m := by rw [List.length_take, Nat.min_eq_left hm]
  have hdrop : s.drop (m + sep.length) = r := by
    rw [← List.drop_drop, ← hr, List.drop_left]
  refine ⟨⟨?_, ?_⟩, hlen⟩
  · rw [hdrop, List.append_assoc, hr, List.take_append_drop]
  · intro a2 r2 h2
    rw [hlen]
    by_contra hlt
    apply hmin a2.length (by omega)
    exact ⟨r2, by rw [h2]; simp [List.append_assoc]⟩

theorem Split_second (c sep a r : GoString) (hsep : sep ≠ []) (h : FirstOccurrence c sep a r) :
    ∃ b, (Split c sep).getD 1 [] = b ∧ 2 ≤ (Split c sep).length ∧
      ((¬ sep <:+: r ∧ b = r) ∨ ∃ r2, FirstOccurrence r sep b r2) := by
  have hi := index_of_first c sep a r h
  have hdrop : c.drop (a.length + sep.length) = r := by
    rw [h.1, List.append_assoc, ← List.length_append, ← List.append_assoc, List.drop_left]
  have hne := Split_ne_nil r sep hsep
  rw [Split_eq c sep hsep, hi]
  simp only [hdrop]
  rw [Split_eq r sep hsep]
  cases hr : Index r sep with
  | none =>
    exact ⟨r, by simp, by simp, Or.inl ⟨(index_none_iff sep r).mp hr, rfl⟩⟩
  | some m2 =>
    have hf := first_of_index r sep m2 hr
    exact ⟨r.take m2, by simp, by simp, Or.inr ⟨_, hf.1⟩⟩

/-! ### Splitting at a single byte -/

theorem Split_cons_single (a c : Nat) (t : GoString) :
    Split (c :: t) [a] =
      if c = a then [] :: Split t [a]
      else (c :: (Split t [a]).headD []) :: (Split t [a]).tail := by
  rw [Split_eq (c :: t) [a] (by simp), index_cons_single]
  by_cases hc : c = a
  · simp [hc]
  · rw [if_neg hc, if_neg hc, Split_eq t [a] (by simp)]
    cases Index t [a] <;> simp

theorem Split_single_length (a : Nat) : ∀ s : GoString,
    (Split s [a]).length = s.count a + 1 := by
  intro s
  induction s with
  | nil => rw [Split_eq [] [a] (by simp)]; simp [Index]
  | cons c t ih =>
    rw [Split_cons_single]
    have hne := Split_ne_nil t [a] (by simp)
    have hpos := List.length_pos.mpr hne
    by_cases hc : c = a
    · subst hc
      simp [ih]
    · have hc2 : ¬ (c == a) = true := by simpa using hc
      rw [if_neg hc, List.length_cons, List.length_tail, List.count_cons, if_neg hc2]
      omega

theorem Split_single_none (a : Nat) (s : GoString) (h : a ∉ s) : Split s [a] = [s] := by
  rw [Split_eq s [a] (by simp)]
  have : Index s [a] = none := by
    rw [index_none_iff]
    intro hin
    exact h (hin.subset (List.mem_singleton_self a))
  rw [this]

theorem Split_two (a : Nat) : ∀ (x y : GoString), a ∉ x → a ∉ y →
    Split (x ++ [a] ++ y) [a] = [x, y] := by
  intro x
  induction x with
  | nil =>
    intro y _ hy
    simp only [List.nil_append, List.singleton_append]
    rw [Split_cons_single, if_pos rfl, Split_single_none a y hy]
  | cons c t ih =>
    intro y hx hy
    simp only [List.mem_cons, not_or] at hx
    have hc : ¬ c = a := fun e => hx.1 e.symm
    simp only [List.cons_append]
    rw [Split_cons_single, if_neg hc]
    have := ih y hx.2 hy
    simp only [List.append_assoc, List.singleton_append] at this
    simp [this]

/-! ## Lemmas on `Sprintf` -/

theorem Sprintf_cons_ne (c : Nat) (rest : GoString) (args : List GoString) (hc : c ≠ 37) :
    Sprintf (c :: rest) args = c :: Sprintf rest args := by
  cases rest with
  | nil => simp [Sprintf]
  | cons v rest => simp [Sprintf, hc]

theorem Sprintf_no_verb : ∀ (t : GoString) (args : List GoString), 37 ∉ t →
    Sprintf t args = t := by
  intro t
  induction t with
  | nil => intro args _; simp [Sprintf]
  | cons c t ih =>
    intro args h
    simp only [List.mem_cons, not_or] at h
    rw [Sprintf_cons_ne c t args (fun e => h.1 e.symm), ih args h.2]

theorem Sprintf_verb : ∀ (t rest a : GoString) (args : List GoString), 37 ∉ t →
    Sprintf (t ++ 37 :: 115 :: rest) (a :: args) = t ++ a ++ Sprintf rest args := by
  intro t
  induction t with
  | nil => intro rest a args _; simp [Sprintf]
  | cons c t ih =>
    intro rest a args h
    simp only [List.mem_cons, not_or] at h
    rw [List.cons_append, Sprintf_cons_ne c _ _ (fun e => h.1 e.symm), ih rest a args h.2]
    simp

set_option maxRecDepth 100000

theorem kmlTemplate_eq :
    kmlTemplate = kmlHead ++ 37 :: 115 :: (kmlMid ++ 37 :: 115 :: (kmlCoord ++ 37 :: 115 ::
      ([44] ++ 37 :: 115 :: kmlTail))) := by
  decide

set_option maxRecDepth 512

theorem kmlContent_eq (name iframe lon lat : GoString) :
    Sprintf kmlTemplate [name, iframe, lon, lat] =
      kmlHead ++ name ++ (kmlMid ++ iframe ++ (kmlCoord ++ lon ++ ([44] ++ lat ++ kmlTail))) := by
  rw [kmlTemplate_eq, Sprintf_verb _ _ _ _ (by decide), Sprintf_verb _ _ _ _ (by decide),
    Sprintf_verb _ _ _ _ (by decide), Sprintf_verb _ _ _ _ (by decide),
    Sprintf_no_verb _ _ (by decide)]

theorem iframeContent_eq (url : GoString) :
    Sprintf iframeTemplate [url] = iframeHead ++ url ++ iframeTail := by
  have h : iframeTemplate = iframeHead ++ 37 :: 115 :: iframeTail := by decide
  rw [h, Sprintf_verb _ _ _ _ (by decide), Sprintf_no_verb _ _ (by decide)]

/-! ## Lemmas on `EscapeString` -/

theorem escapeByte_cases (y : Nat) :
    (escapeByte y ∈ entities ∧ ∃ t, escapeByte y = 38 :: t ∧
        38 ∉ t ∧ 60 ∉ t ∧ 62 ∉ t ∧ 34 ∉ t ∧ 39 ∉ t) ∨
      (escapeByte y = [y] ∧ y ≠ 38 ∧ y ≠ 60 ∧ y ≠ 62 ∧ y ≠ 34 ∧ y ≠ 39) := by
  unfold escapeByte
  by_cases h38 : y = 38
  · left; rw [if_pos h38]; exact ⟨by decide, [97, 109, 112, 59], by decide, by decide⟩
  · by_cases h39 : y = 39
    · left; rw [if_neg h38, if_pos h39]
      exact ⟨by decide, [35, 51, 57, 59], by decide, by decide⟩
    · by_cases h60 : y = 60
      · left; rw [if_neg h38, if_neg h39, if_pos h60]
        exact ⟨by decide, [108, 116, 59], by decide, by decide⟩
      · by_cases h62 : y = 62
        · left; rw [if_neg h38, if_neg h39, if_neg h60, if_pos h62]
          exact ⟨by decide, [103, 116, 59], by decide, by decide⟩
        · by_cases h34 : y = 34
          · left; rw [if_neg h38, if_neg h39, if_neg h60, if_neg h62, if_pos h34]
            exact ⟨by decide, [35, 51, 52, 59], by decide, by decide⟩
          · right
            rw [if_neg h38, if_neg h39, if_neg h60, if_neg h62, if_neg h34]
            exact ⟨rfl, h38, h60, h62, h34, h39⟩

theorem EscapeString_clean (c : GoString) :
    ∀ x ∈ EscapeString c, x ≠ 60 ∧ x ≠ 62 ∧ x ≠ 34 ∧ x ≠ 39 := by
  intro x hx
  unfold EscapeString at hx
  obtain ⟨y, _, hxy⟩ := List.mem_flatMap.mp hx
  rcases escapeByte_cases y with ⟨_, t, ht, h38, h60, h62, h34, h39⟩ | ⟨hy, _, h60, h62, h34, h39⟩
  · rw [ht] at hxy
    rcases List.mem_cons.mp hxy with rfl | hxt
    · decide
    · refine ⟨?_, ?_, ?_, ?_⟩ <;> rintro rfl <;> contradiction
  · rw [hy] at hxy
    obtain rfl := List.mem_singleton.mp hxy
    exact ⟨h60, h62, h34, h39⟩

theorem EscapeString_amp : ∀ (c p q : GoString), EscapeString c = p ++ 38 :: q →
    ∃ ent ∈ entities, ent <+: 38 :: q := by
  intro c
  induction c with
  | nil => intro p q h; simp [EscapeString] at h
  | cons y c ih =>
    intro p q h
    have hcons : EscapeString (y :: c) = escapeByte y ++ EscapeString c := by
      simp [EscapeString]
    rw [hcons] at h
    rcases List.append_eq_append_iff.mp h with ⟨a2, hp, hrest⟩ | ⟨c2, hy, hq⟩
    · exact ih a2 q hrest
    · cases c2 with
      | nil =>
        simp only [List.nil_append] at hq
        exact ih [] q (by simpa using hq.symm)
      | cons z c2 =>
        simp only [List.cons_append, List.cons.injEq] at hq
        obtain ⟨rfl, hq⟩ := hq
        rcases escapeByte_cases y with ⟨hent, t, ht, h38, _⟩ | ⟨hs, hne, _⟩
        · rw [ht] at hy
          cases p with
          | nil =>
            refine ⟨escapeByte y, hent, ?_⟩
            simp only [List.nil_append, List.cons.injEq, true_and] at hy
            rw [ht, hq, hy]
            exact ⟨EscapeString c, by simp⟩
          | cons z p =>
            simp only [List.cons_append, List.cons.injEq] at hy
            exact absurd (hy.2 ▸ List.mem_append_right p (List.mem_cons_self 38 c2)) h38
        · rw [hs] at hy
          cases p with
          | nil =>
            simp only [List.nil_append, List.cons.injEq] at hy
            exact absurd hy.1 hne
          | cons z p =>
            simp only [List.cons_append, List.cons.injEq] at hy
            have := hy.2
            simp at this

theorem EscapeString_no_cdata_end (c : GoString) : ¬ bytes "]]>" <:+: EscapeString c := by
  intro h
  have h62 : (62 : Nat) ∈ EscapeString c := h.subset (by decide)
  exact (EscapeString_clean c 62 h62).2.1 rfl

/-! ## Lemmas on `main` -/

theorem marker_ne_nil : marker ≠ [] := by decide

theorem main_of_marker (w : World) (apiKey c : GoString)
    (hkey : w.readAPIKey = some apiKey)
    (hdir : (w.outputDirMissing && !w.mkdirAllOk) = false)
    (hclip : w.clipboardReadAll = some c) (hc : c ≠ []) (hm : marker <:+: c) :
    main w = fromFragment w apiKey c ((Split c marker).getD 1 []) := by
  have hlen : ¬ (Split c marker).length < 2 := by
    rw [Split_length_lt_two c marker marker_ne_nil]
    exact not_not.mpr hm
  unfold main
  simp only [hkey, hdir, hclip, hc, hlen, if_false, Bool.false_eq_true]

theorem main_of_no_marker (w : World) (apiKey c : GoString)
    (hkey : w.readAPIKey = some apiKey)
    (hdir : (w.outputDirMissing && !w.mkdirAllOk) = false)
    (hclip : w.clipboardReadAll = some c) (hc : c ≠ []) (hm : ¬ marker <:+: c) :
    main w = Run.exit1 .MalformedFragment [] := by
  have hlen : (Split c marker).length < 2 :=
    (Split_length_lt_two c marker marker_ne_nil).mpr hm
  unfold main
  simp only [hkey, hdir, hclip, hc, hlen, if_false, if_true, Bool.false_eq_true]

theorem main_of_reaches (w : World) (c : GoString) (resp : YandexGeocodeResponse)
    (h : ReachesResponse w c resp) : ∃ url, main w = processResponse w c [url] resp := by
  obtain ⟨apiKey, toponym, body, hkey, hdir, hclip, hc, hm, hex, hget, hjson⟩ := h
  refine ⟨Sprintf apiURLTemplate [apiKey, QueryEscape toponym], ?_⟩
  rw [main_of_marker w apiKey c hkey hdir hclip hc hm]
  unfold fromFragment
  simp only [hex, hget, hjson, ne_eq, not_true_eq_false, if_false]

theorem processResponse_nil (w : World) (c : GoString) (reqs : List GoString)
    (resp : YandexGeocodeResponse) (h : resp.featureMember = []) :
    processResponse w c reqs resp = Run.exit1 .NotFound reqs := by
  unfold processResponse
  rw [h]

theorem processResponse_bad_pos (w : World) (c : GoString) (reqs : List GoString)
    (resp : YandexGeocodeResponse) (first : Feature) (rest : List Feature)
    (h : resp.featureMember = first :: rest) (hname : first.name ≠ [])
    (hpos : (Split first.pos [32]).length ≠ 2) :
    processResponse w c reqs resp = Run.exit1 .InvalidCoordinates reqs := by
  unfold processResponse
  rw [h]
  simp only [hname, hpos, if_false, ne_eq, not_false_eq_true, if_true]

theorem processResponse_ok (w : World) (c : GoString) (reqs : List GoString)
    (resp : YandexGeocodeResponse) (first : Feature) (rest : List Feature) (lon lat : GoString)
    (h : resp.featureMember = first :: rest) (hname : first.name ≠ [])
    (hpos : Split first.pos [32] = [lon, lat]) :
    ∃ filename, processResponse w c reqs resp =
      writeKML w c filename first.name lon lat reqs := by
  refine ⟨outputDir ++ [w.pathSeparator] ++ (sanitizeFileName first.name ++ bytes ".kml"), ?_⟩
  unfold processResponse
  rw [h]
  simp [hname, hpos]

theorem writeKML_calls (w : World) (c filename name lon lat : GoString)
    (reqs : List GoString) :
    (writeKML w c filename name lon lat reqs).writeFileCalls =
      [(filename, Sprintf kmlTemplate [name, Sprintf iframeTemplate [EscapeString c], lon, lat])] := by
  unfold writeKML
  by_cases h : w.writeFileOk = true <;> simp [h]

theorem main_writes_of_split (w : World) (c : GoString) (resp : YandexGeocodeResponse)
    (first : Feature) (rest : List Feature) (lon lat : GoString)
    (hr : ReachesResponse w c resp) (hf : resp.featureMember = first :: rest)
    (hname : first.name ≠ []) (hsplit : Split first.pos [32] = [lon, lat]) :
    ∃ fn, (main w).writeFileCalls =
      [(fn, Sprintf kmlTemplate [first.name, Sprintf iframeTemplate [EscapeString c], lon, lat])] := by
  obtain ⟨url, hmain⟩ := main_of_reaches w c resp hr
  obtain ⟨fn, hp⟩ := processResponse_ok w c [url] resp first rest lon lat hf hname hsplit
  exact ⟨fn, by rw [hmain, hp, writeKML_calls]⟩

theorem headD_mem {α : Type} (l : List α) (d : α) (h : l ≠ []) : l.headD d ∈ l := by
  cases l with
  | nil => exact absurd rfl h
  | cons a t => simp

theorem processResponse_writes (w : World) (c : GoString) (reqs : List GoString)
    (resp : YandexGeocodeResponse) (fn doc : GoString)
    (h : (fn, doc) ∈ (processResponse w c reqs resp).writeFileCalls) :
    ∃ name lon lat,
      doc = Sprintf kmlTemplate [name, Sprintf iframeTemplate [EscapeString c], lon, lat] := by
  unfold processResponse at h
  split at h
  · simp [Run.exit1] at h
  · dsimp only at h
    split at h
    · simp [Run.exit1] at h
    · split at h
      · simp [Run.exit1] at h
      · rw [writeKML_calls] at h
        simp only [List.mem_singleton, Prod.mk.injEq] at h
        exact ⟨_, _, _, h.2⟩

theorem fromFragment_writes (w : World) (apiKey c fragment fn doc : GoString)
    (h : (fn, doc) ∈ (fromFragment w apiKey c fragment).writeFileCalls) :
    ∃ name lon lat,
      doc = Sprintf kmlTemplate [name, Sprintf iframeTemplate [EscapeString c], lon, lat] := by
  unfold fromFragment at h
  split at h
  · simp [Run.exit1] at h
  · dsimp only at h
    split at h
    · simp [Run.exit1] at h
    · split at h
      · simp [Run.exit1] at h
      · split at h
        · simp [Run.exit1] at h
        · exact processResponse_writes w c _ _ fn doc h

theorem main_writes (w : World) (fn doc : GoString)
    (h : (fn, doc) ∈ (main w).writeFileCalls) :
    ∃ c name lon lat, w.clipboardReadAll = some c ∧
      doc = Sprintf kmlTemplate [name, Sprintf iframeTemplate [EscapeString c], lon, lat] := by
  unfold main at h
  split at h
  · simp [Run.exit1] at h
  · split at h
    · simp [Run.exit1] at h
    · split at h
      · simp [Run.exit1] at h
      · rename_i c hclip
        split at h
        · simp [Run.exit1] at h
        · dsimp only at h
          split at h
          · simp [Run.exit1] at h
          · obtain ⟨name, lon, lat, hd⟩ := fromFragment_writes w _ c _ fn doc h
            exact ⟨c, name, lon, lat, hclip, hd⟩

/-! ## The pipeline -/

theorem sampleWorld_reaches (c : GoString) (resp : YandexGeocodeResponse) (toponym : GoString)
    (hc : c ≠ []) (hm : marker <:+: c)
    (hex : extractToponym ((Split c marker).getD 1 []) = .ok toponym) :
    ReachesResponse (sampleWorld c resp) c resp :=
  ⟨bytes "KEY", toponym, bytes "json", rfl, rfl, rfl, hc, hm, hex, rfl, rfl⟩

theorem kmlCoord_eq :
    kmlCoord = bytes "]]></description>" ++
      (bytes "\n\t\t\t<styleUrl>#customIcon</styleUrl>\n\t\t\t<Point>\n\t\t\t\t" ++
        bytes "<coordinates>") := by
  decide

theorem kmlTail_eq :
    kmlTail = bytes ",0</coordinates>" ++
      bytes "\n\t\t\t</Point>\n\t\t</Placemark>\n\t</Document>\n</kml>" := by
  decide

theorem kmlMid_eq : kmlMid = bytes "</name>\n\t\t\t" ++ bytes "<description><![CDATA[" := by
  decide

theorem coordinates_infix (name iframe lon lat : GoString) :
    (bytes "<coordinates>" ++ lon ++ [44] ++ lat ++ bytes ",0</coordinates>") <:+:
      Sprintf kmlTemplate [name, iframe, lon, lat] := by
  rw [kmlContent_eq, kmlCoord_eq, kmlTail_eq]
  refine ⟨kmlHead ++ name ++ (kmlMid ++ iframe ++ (bytes "]]></description>" ++
      bytes "\n\t\t\t<styleUrl>#customIcon</styleUrl>\n\t\t\t<Point>\n\t\t\t\t")),
    bytes "\n\t\t\t</Point>\n\t\t</Placemark>\n\t</Document>\n</kml>", ?_⟩
  simp only [List.append_assoc]

theorem description_infix (name url lon lat : GoString) :
    (bytes "<description><![CDATA[<iframe src=\"" ++ url ++
        bytes "\" width=\"700\" height=\"800\" frameborder=\"0\"></iframe>]]></description>") <:+:
      Sprintf kmlTemplate [name, Sprintf iframeTemplate [url], lon, lat] := by
  have h1 : bytes "<description><![CDATA[<iframe src=\"" =
      bytes "<description><![CDATA[" ++ iframeHead := by decide
  have h2 : bytes "\" width=\"700\" height=\"800\" frameborder=\"0\"></iframe>]]></description>" =
      iframeTail ++ bytes "]]></description>" := by decide
  rw [kmlContent_eq, iframeContent_eq, kmlCoord_eq, kmlMid_eq, h1, h2]
  refine ⟨kmlHead ++ name ++ bytes "</name>\n\t\t\t",
    bytes "\n\t\t\t<styleUrl>#customIcon</styleUrl>\n\t\t\t<Point>\n\t\t\t\t" ++
      bytes "<coordinates>" ++ lon ++ ([44] ++ lat ++ kmlTail), ?_⟩
  simp only [List.append_assoc]

/-- C5: a run that reaches the decoded response, whose first feature has a
non-empty name and the position `LON LAT` (two parts without a space, one space
between them), writes one document, and this document contains
`<coordinates>LON,LAT,0</coordinates>` with the two parts as they stand. -/
theorem coordinates_rendered (w : World) (c : GoString) (resp : YandexGeocodeResponse)
    (first : Feature) (rest : List Feature) (LON LAT : GoString)
    (hr : ReachesResponse w c resp) (hf : resp.featureMember = first :: rest)
    (hname : first.name ≠ []) (hpos : first.pos = LON ++ [32] ++ LAT)
    (hlon : 32 ∉ LON) (hlat : 32 ∉ LAT) :
    ∃ fn doc, (main w).writeFileCalls = [(fn, doc)] ∧
      (bytes "<coordinates>" ++ LON ++ [44] ++ LAT ++ bytes ",0</coordinates>") <:+: doc := by
  have hsplit : Split first.pos [32] = [LON, LAT] := by
    rw [hpos]; exact Split_two 32 LON LAT hlon hlat
  obtain ⟨fn, hcalls⟩ := main_writes_of_split w c resp first rest LON LAT hr hf hname hsplit
  exact ⟨fn, _, hcalls, coordinates_infix first.name (Sprintf iframeTemplate [EscapeString c])
    LON LAT⟩

theorem coordinates_rendered_witness :
    ReachesResponse (sampleWorld eiffelClipboard (oneFeature (bytes "Paris") (bytes "37.61 55.75")))
        eiffelClipboard (oneFeature (bytes "Paris") (bytes "37.61 55.75")) ∧
      bytes "37.61 55.75" = bytes "37.61" ++ [32] ++ bytes "55.75" ∧
      ∃ fn doc,
        (main (sampleWorld eiffelClipboard
          (oneFeature (bytes "Paris") (bytes "37.61 55.75")))).writeFileCalls = [(fn, doc)] ∧
        (bytes "<coordinates>" ++ bytes "37.61" ++ [44] ++ bytes "55.75" ++
          bytes ",0</coordinates>") <:+: doc :=
  ⟨sampleWorld_reaches _ _ (bytes "Eiffel Tower") (by decide) (by decide) (by decide),
    by decide,
    coordinates_rendered _ eiffelClipboard (oneFeature (bytes "Paris") (bytes "37.61 55.75"))
      { name := bytes "Paris", pos := bytes "37.61 55.75" } [] (bytes "37.61") (bytes "55.75")
      (sampleWorld_reaches _ _ (bytes "Eiffel Tower") (by decide) (by decide) (by decide))
      rfl (by decide) (by decide) (by decide) (by decide)⟩

/-- C6: a run that reaches a decoded response whose `featureMember` is empty
fails with `NotFound`, exits with code 1 and never calls `WriteFile`. -/
theorem empty_collection_not_found (w : World) (c : GoString) (resp : YandexGeocodeResponse)
    (hr : ReachesResponse w c resp) (hempty : resp.featureMember = []) :
    (main w).fatal = some .NotFound ∧ (main w).exitCode = 1 ∧ (main w).writeFileCalls = [] := by
  obtain ⟨url, hmain⟩ := main_of_reaches w c resp hr
  rw [hmain, processResponse_nil w c [url] resp hempty]
  exact ⟨rfl, rfl, rfl⟩

theorem empty_collection_not_found_witness :
    ReachesResponse (sampleWorld eiffelClipboard { featureMember := [] }) eiffelClipboard
        { featureMember := [] } ∧
      (main (sampleWorld eiffelClipboard { featureMember := [] })).fatal = some .NotFound ∧
      (main (sampleWorld eiffelClipboard { featureMember := [] })).exitCode = 1 ∧
      (main (sampleWorld eiffelClipboard { featureMember := [] })).writeFileCalls = [] :=
  ⟨sampleWorld_reaches _ _ (bytes "Eiffel Tower") (by decide) (by decide) (by decide),
    empty_collection_not_found _ eiffelClipboard { featureMember := [] }
      (sampleWorld_reaches _ _ (bytes "Eiffel Tower") (by decide) (by decide) (by decide)) rfl⟩

/-- C8 (amended): for a run that reaches the decoded response and whose first
feature has a non-empty name, the run fails with `InvalidCoordinates` and writes
no document exactly when the position string does not hold exactly one space
byte. -/
theorem invalid_coordinates (w : World) (c : GoString) (resp : YandexGeocodeResponse)
    (first : Feature) (rest : List Feature)
    (hr : ReachesResponse w c resp) (hf : resp.featureMember = first :: rest)
    (hname : first.name ≠ []) :
    first.pos.count 32 ≠ 1 ↔
      ((main w).fatal = some .InvalidCoordinates ∧ (main w).writeFileCalls = []) := by
  obtain ⟨url, hmain⟩ := main_of_reaches w c resp hr
  have hlen := Split_single_length 32 first.pos
  constructor
  · intro hcount
    have hbad : (Split first.pos [32]).length ≠ 2 := by omega
    rw [hmain, processResponse_bad_pos w c [url] resp first rest hf hname hbad]
    exact ⟨rfl, rfl⟩
  · rintro ⟨_, hcalls⟩ hcount
    have h2 : (Split first.pos [32]).length = 2 := by omega
    obtain ⟨lon, lat, hsplit⟩ : ∃ lon lat, Split first.pos [32] = [lon, lat] := by
      match hs : Split first.pos [32], h2 with
      | [lon, lat], _ => exact ⟨lon, lat, rfl⟩
    obtain ⟨fn, hp⟩ := processResponse_ok w c [url] resp first rest lon lat hf hname hsplit
    rw [hmain, hp, writeKML_calls] at hcalls
    cases hcalls

theorem invalid_coordinates_witness :
    ReachesResponse (sampleWorld eiffelClipboard (oneFeature (bytes "Paris") (bytes "37.61,55.75")))
        eiffelClipboard (oneFeature (bytes "Paris") (bytes "37.61,55.75")) ∧
      ((bytes "37.61,55.75").count 32 ≠ 1 ↔
        ((main (sampleWorld eiffelClipboard
            (oneFeature (bytes "Paris") (bytes "37.61,55.75")))).fatal =
            some .InvalidCoordinates ∧
          (main (sampleWorld eiffelClipboard
            (oneFeature (bytes "Paris") (bytes "37.61,55.75")))).writeFileCalls = [])) :=
  ⟨sampleWorld_reaches _ _ (bytes "Eiffel Tower") (by decide) (by decide) (by decide),
    invalid_coordinates _ eiffelClipboard (oneFeature (bytes "Paris") (bytes "37.61,55.75"))
      { name := bytes "Paris", pos := bytes "37.61,55.75" } []
      (sampleWorld_reaches _ _ (bytes "Eiffel Tower") (by decide) (by decide) (by decide))
      rfl (by decide)⟩

theorem invalid_coordinates_counterexample :
    ReachesResponse (sampleWorld eiffelClipboard (oneFeature (bytes "Paris") (bytes "37.61 ")))
        eiffelClipboard (oneFeature (bytes "Paris") (bytes "37.61 ")) ∧
      tokens (bytes "37.61 ") = [bytes "37.61"] ∧
      (main (sampleWorld eiffelClipboard (oneFeature (bytes "Paris") (bytes "37.61 ")))).fatal =
        none ∧
      ∃ fn doc,
        (main (sampleWorld eiffelClipboard
          (oneFeature (bytes "Paris") (bytes "37.61 ")))).writeFileCalls = [(fn, doc)] ∧
        (bytes "<coordinates>" ++ bytes "37.61" ++ [44] ++ [] ++ bytes ",0</coordinates>")
          <:+: doc :=
  ⟨sampleWorld_reaches _ _ (bytes "Eiffel Tower") (by decide) (by decide) (by decide),
    by decide, by decide,
    (main_writes_of_split _ eiffelClipboard (oneFeature (bytes "Paris") (bytes "37.61 "))
      { name := bytes "Paris", pos := bytes "37.61 " } [] (bytes "37.61") []
      (sampleWorld_reaches _ _ (bytes "Eiffel Tower") (by decide) (by decide) (by decide))
      rfl (by decide) (by decide)).elim
      fun fn h => ⟨fn, _, h, coordinates_infix _ _ _ _⟩⟩

/-- C9 (amended): for a run whose credential, directory and clipboard steps
succeed with a non-empty clipboard text `c`: when `c` does not hold the marker
the run stops with `MalformedFragment` before any request; when it does, the text
handed to `extractToponym` is what stands between the first occurrence of the
marker and the next one, or everything behind the first occurrence when the
marker occurs only once. -/
theorem marker_location (w : World) (apiKey c : GoString)
    (hkey : w.readAPIKey = some apiKey)
    (hdir : (w.outputDirMissing && !w.mkdirAllOk) = false)
    (hclip : w.clipboardReadAll = some c) (hc : c ≠ []) :
    (¬ marker <:+: c → main w = Run.exit1 .MalformedFragment []) ∧
    (∀ a r, FirstOccurrence c marker a r →
      ∃ b, main w = fromFragment w apiKey c b ∧
        ((¬ marker <:+: r ∧ b = r) ∨ ∃ r2, FirstOccurrence r marker b r2)) := by
  constructor
  · exact main_of_no_marker w apiKey c hkey hdir hclip hc
  · intro a r hfirst
    obtain ⟨b, hb, _, hchar⟩ := Split_second c marker a r marker_ne_nil hfirst
    have hm : marker <:+: c := ⟨a, r, hfirst.1.symm⟩
    refine ⟨b, ?_, hchar⟩
    rw [main_of_marker w apiKey c hkey hdir hclip hc hm, hb]

theorem marker_location_witness :
    main (sampleWorld (bytes "https://maps.example/place") { featureMember := [] }) =
        Run.exit1 .MalformedFragment [] ∧
      ∃ b, main (sampleWorld twoMarkers { featureMember := [] }) =
          fromFragment (sampleWorld twoMarkers { featureMember := [] }) (bytes "KEY")
            twoMarkers b ∧
        ((¬ marker <:+: twoMarkers.drop (21 + marker.length) ∧
            b = twoMarkers.drop (21 + marker.length)) ∨
          ∃ r2, FirstOccurrence (twoMarkers.drop (21 + marker.length)) marker b r2) :=
  ⟨(marker_location (sampleWorld (bytes "https://maps.example/place") { featureMember := [] })
      (bytes "KEY") (bytes "https://maps.example/place") rfl rfl rfl (by decide)).1 (by decide),
    (marker_location (sampleWorld twoMarkers { featureMember := [] })
      (bytes "KEY") twoMarkers rfl rfl rfl (by decide)).2 _ _
      (first_of_index twoMarkers marker 21 (by decide)).1⟩

theorem marker_location_counterexample :
    twoMarkers = bytes "https://maps.example/" ++ marker ++ bytes "Paris#:~:text=Rome" ∧
      Index twoMarkers marker = some (bytes "https://maps.example/").length ∧
      (Split twoMarkers marker).getD 1 [] = bytes "Paris" ∧
      main (sampleWorld twoMarkers { featureMember := [] }) =
        fromFragment (sampleWorld twoMarkers { featureMember := [] }) (bytes "KEY") twoMarkers
          (bytes "Paris") ∧
      (main (sampleWorld twoMarkers { featureMember := [] })).requests =
        [bytes "https://geocode-maps.yandex.ru/1.x/?format=json&apikey=KEY&geocode=Paris"] ∧
      (fromFragment (sampleWorld twoMarkers { featureMember := [] }) (bytes "KEY") twoMarkers
          (bytes "Paris#:~:text=Rome")).requests =
        [bytes ("https://geocode-maps.yandex.ru/1.x/?format=json&apikey=KEY" ++
          "&geocode=Paris%23%3A~%3Atext%3DRome")] :=
  ⟨by decide, by decide, by decide, by decide, by decide, by decide⟩

/-- C10: every document a run writes contains the description
`<description><![CDATA[<iframe src="E" width="700" height="800"
frameborder="0"></iframe>]]></description>`, where `E` is `html.EscapeString` of
the clipboard text; `E` holds none of `<`, `>`, double quote and single quote,
every `&` of `E` starts one of the five entities, and `]]>` does not occur in `E`. -/
theorem description_escaped (w : World) (fn doc : GoString)
    (h : (fn, doc) ∈ (main w).writeFileCalls) :
    ∃ c, w.clipboardReadAll = some c ∧
      (bytes "<description><![CDATA[<iframe src=\"" ++ EscapeString c ++
        bytes "\" width=\"700\" height=\"800\" frameborder=\"0\"></iframe>]]></description>")
        <:+: doc ∧
      (∀ x ∈ EscapeString c, x ≠ 60 ∧ x ≠ 62 ∧ x ≠ 34 ∧ x ≠ 39) ∧
      (∀ p q, EscapeString c = p ++ 38 :: q → ∃ ent ∈ entities, ent <+: 38 :: q) ∧
      ¬ bytes "]]>" <:+: EscapeString c := by
  obtain ⟨c, name, lon, lat, hclip, hdoc⟩ := main_writes w fn doc h
  refine ⟨c, hclip, ?_, EscapeString_clean c, EscapeString_amp c, EscapeString_no_cdata_end c⟩
  rw [hdoc]
  exact description_infix name (EscapeString c) lon lat

theorem description_escaped_witness :
    ((main (sampleWorld ampClipboard (oneFeature (bytes "Rome") (bytes "12.5 41.9")))).writeFileCalls.headD
          ([], [])) ∈
        (main (sampleWorld ampClipboard (oneFeature (bytes "Rome") (bytes "12.5 41.9")))).writeFileCalls ∧
      EscapeString ampClipboard = bytes "https://m.example/?a=1&amp;b=&lt;x&gt;#:~:text=Rome" ∧
      ∃ c, (sampleWorld ampClipboard (oneFeature (bytes "Rome") (bytes "12.5 41.9"))).clipboardReadAll =
          some c ∧
        (bytes "<description><![CDATA[<iframe src=\"" ++ EscapeString c ++
          bytes "\" width=\"700\" height=\"800\" frameborder=\"0\"></iframe>]]></description>")
          <:+: ((main (sampleWorld ampClipboard
            (oneFeature (bytes "Rome") (bytes "12.5 41.9")))).writeFileCalls.headD ([], [])).2 ∧
        (∀ x ∈ EscapeString c, x ≠ 60 ∧ x ≠ 62 ∧ x ≠ 34 ∧ x ≠ 39) ∧
        (∀ p q, EscapeString c = p ++ 38 :: q → ∃ ent ∈ entities, ent <+: 38 :: q) ∧
        ¬ bytes "]]>" <:+: EscapeString c :=
  ⟨headD_mem _ ([], []) (by decide), by decide,
    description_escaped (sampleWorld ampClipboard (oneFeature (bytes "Rome") (bytes "12.5 41.9")))
      ((main (sampleWorld ampClipboard
        (oneFeature (bytes "Rome") (bytes "12.5 41.9")))).writeFileCalls.headD ([], [])).1
      ((main (sampleWorld ampClipboard
        (oneFeature (bytes "Rome") (bytes "12.5 41.9")))).writeFileCalls.headD ([], [])).2
      (headD_mem _ ([], []) (by decide))⟩

end Eventmap
